import Mathlib

/-!
Verification of the `dom-shorthand` library (TypeScript) against its
natural-language specification.

The development shallowly embeds the library's source:
* `src/src/dom/dom-nodes.ts` — node descriptions, the describe/create codec and
  the reconciliation engine (`describeNode`, `createDescribedNode`,
  `attributesMatchDescription`, `checkEquivalence`,
  `applyDescribedAttributeChanges`, `applyDescribedNodeChanges`,
  `setChildNodesFromDescriptions`);
* `src/unnamed/part_003` (the `dom-shorthands` module) — the shorthand model and
  codecs (`DOMDescriptionToShorthand`, `shorthandToDOMDescription`,
  `shorthandToHTML`, `validateDOMShorthand`).

Modelling conventions:
* JavaScript runtime values (needed for `checkEquivalence` and
  `validateDOMShorthand`, which take arbitrary values) are embedded as the
  inductive `JSValue`; plain objects are ordered association lists of fields and
  arrays are lists.
* An optional record key `k?: T` is embedded as `Option T`; `none` means the key
  is absent.  The `nodeValue?: string | null` field is `Option (Option String)`:
  `none` = key absent, `some none` = key present holding `null`.
* Live DOM nodes are embedded as the inductive `DNode`, following the abstract
  host-tree capability interface the specification assumes (node creation by
  kind, name/value/child/attribute access).  Element names are kept verbatim
  (as for `createElementNS`/XML documents); the live attribute collection is an
  ordered list of name/value pairs with unique names, mutated by explicit state
  passing.
* Mutating procedures are embedded as functions returning the updated value.
-/

namespace DomShorthand

/-! ## JavaScript value model -/

/-- A JSON-ish JavaScript runtime value: strings, numbers (integral — the
library only ever compares `nodeType` codes), booleans, `null`, `undefined`,
arrays, and plain objects as ordered field lists. -/
inductive JSValue : Type where
  | str (s : String)
  | num (n : Int)
  | bool (b : Bool)
  | null
  | undefined
  | arr (items : List JSValue)
  | obj (fields : List (String × JSValue))

/-- The own index properties of a JavaScript array: the canonical decimal
string of each index, mapped to the element stored there. -/
def JSValue.arrayIndexFields (items : List JSValue) : List (String × JSValue) :=
  ((List.range items.length).map toString).zip items

/-- Property access `v[key]` for the values `checkEquivalence` walks: on a plain
object it is the field with that name (first occurrence); on an array a
canonical decimal index string yields the element and `"length"` the length;
anything else yields `undefined`. -/
def JSValue.getKey : JSValue → String → JSValue
  | .obj fields, key =>
      match fields.find? (fun p => p.1 == key) with
      | some p => p.2
      | none => .undefined
  | .arr items, key =>
      if key == "length" then .num items.length
      else
        match (arrayIndexFields items).find? (fun p => p.1 == key) with
        | some p => p.2
        | none => .undefined
  | _, _ => .undefined

/-- The own enumerable keys walked by `for (const key in v)`: field names for a
plain object, index strings for an array. -/
def JSValue.ownKeys : JSValue → List String
  | .obj fields => fields.map Prod.fst
  | .arr items => (List.range items.length).map toString
  | _ => []

/-- The `key in v` operator for the values reached by `checkEquivalence`:
key presence on an object; canonical index below length or `"length"` on an
array. -/
def JSValue.keyIn (v : JSValue) (key : String) : Bool :=
  match v with
  | .obj fields => fields.any (fun p => p.1 == key)
  | .arr items =>
      key == "length" || (arrayIndexFields items).any (fun p => p.1 == key)
  | _ => false

/-- JavaScript strict equality `===` restricted to the non-object values on
which `checkEquivalence` falls through to it (two distinct object values are
never reference-equal, and the source only reaches `===` when the first
argument is not a non-null object). -/
def jsStrictEq : JSValue → JSValue → Bool
  | .str a, .str b => a == b
  | .num a, .num b => a == b
  | .bool a, .bool b => a == b
  | .null, .null => true
  | .undefined, .undefined => true
  | _, _ => false

mutual

/-- `checkEquivalence` from `dom-nodes.ts` (lines 411–440): if the first value
is a non-null object, an array first argument demands an array second argument
and compares index-wise then by length, while a plain-object first argument
only demands that the second be any non-null object, compares the first
object's keys against the second's properties, then checks the second has no
extra keys; otherwise strict equality. -/
def checkEquivalence (first second : JSValue) : Bool :=
  match first with
  | .arr items =>
      match second with
      | .arr items2 => checkEquivalenceElems items items2 && items.length == items2.length
      | .obj _ => false
      | _ => false
  | .obj fields =>
      match second with
      | .arr _ =>
          checkEquivalenceFields fields second &&
            (JSValue.ownKeys second).all (JSValue.keyIn (.obj fields))
      | .obj _ =>
          checkEquivalenceFields fields second &&
            (JSValue.ownKeys second).all (JSValue.keyIn (.obj fields))
      | _ => false
  | _ => jsStrictEq first second

/-- The array leg of `checkEquivalence`: walk the first array's indices,
reading the second at the same index (`undefined` past its end). -/
def checkEquivalenceElems : List JSValue → List JSValue → Bool
  | [], _ => true
  | x :: xs, ys => checkEquivalence x (ys.headD .undefined) && checkEquivalenceElems xs ys.tail

/-- The object leg of `checkEquivalence`: walk the first object's keys,
recursing on the second's property at each key. -/
def checkEquivalenceFields : List (String × JSValue) → JSValue → Bool
  | [], _ => true
  | (k, v) :: rest, second =>
      checkEquivalence v (second.getKey k) && checkEquivalenceFields rest second

end

/-! ## Node description model (`dom-nodes.ts`) -/

-- The `NodeType` enum of `dom-nodes.ts` (lines 6–16): the standard DOM
-- node-type codes.
namespace NodeType

def ELEMENT_NODE : Nat := 1

def ATTRIBUTE_NODE : Nat := 2

def TEXT_NODE : Nat := 3

def CDATA_SECTION_NODE : Nat := 4

def PROCESSING_INSTRUCTION_NODE : Nat := 7

def COMMENT_NODE : Nat := 8

def DOCUMENT_NODE : Nat := 9

def DOCUMENT_TYPE_NODE : Nat := 10

def DOCUMENT_FRAGMENT_NODE : Nat := 11

end NodeType

/-- The `DOMNodeDescription` / `DOMElementDescription` interfaces: a JSON-safe
record with a required `nodeType` code and optional `nodeName`, `nodeValue`
(string or `null` when present), `attributes` (element descriptions only;
an ordered name→value record) and `childNodes`.  `none` models an absent key;
for `nodeValue`, `some none` models a key present holding `null`. -/
inductive DOMNodeDescription : Type where
  | mk (nodeType : Nat) (nodeName : Option String) (nodeValue : Option (Option String))
      (attributes : Option (List (String × String)))
      (childNodes : Option (List DOMNodeDescription))

def DOMNodeDescription.nodeType : DOMNodeDescription → Nat
  | .mk t _ _ _ _ => t

def DOMNodeDescription.nodeName : DOMNodeDescription → Option String
  | .mk _ n _ _ _ => n

def DOMNodeDescription.nodeValue : DOMNodeDescription → Option (Option String)
  | .mk _ _ v _ _ => v

def DOMNodeDescription.attributes : DOMNodeDescription → Option (List (String × String))
  | .mk _ _ _ a _ => a

def DOMNodeDescription.childNodes : DOMNodeDescription → Option (List DOMNodeDescription)
  | .mk _ _ _ _ c => c

/-- `createElementDescription` (`dom-nodes.ts` lines 216–232): element
description from a tag, optional attribute record and optional children. -/
def createElementDescription (tag : String) (attributes : Option (List (String × String)))
    (childNodes : Option (List DOMNodeDescription)) : DOMNodeDescription :=
  .mk NodeType.ELEMENT_NODE (some tag) none attributes childNodes

/-- `createAttributeDescription` (lines 241–250): attribute-node description;
the `nodeValue` key is always present, possibly holding `null`. -/
def createAttributeDescription (name : String) (value : Option String) : DOMNodeDescription :=
  .mk NodeType.ATTRIBUTE_NODE (some name) (some value) none none

/-- `createTextNodeDescription` (lines 258–264). -/
def createTextNodeDescription (text : String) : DOMNodeDescription :=
  .mk NodeType.TEXT_NODE (some "#text") (some (some text)) none none

/-- `createCommentDescription` (lines 272–278). -/
def createCommentDescription (text : String) : DOMNodeDescription :=
  .mk NodeType.COMMENT_NODE (some "#comment") (some (some text)) none none

/-- `createCDataDescription` (lines 286–292). -/
def createCDataDescription (data : String) : DOMNodeDescription :=
  .mk NodeType.CDATA_SECTION_NODE (some "#cdata-section") (some (some data)) none none

/-- `createProcessingInstructionDescription` (lines 301–310). -/
def createProcessingInstructionDescription (target : String) (data : String) :
    DOMNodeDescription :=
  .mk NodeType.PROCESSING_INSTRUCTION_NODE (some target) (some (some data)) none none

/-- `createFragmentDescription` (lines 318–329): the `childNodes` key is set
only when the argument was supplied. -/
def createFragmentDescription (childNodes : Option (List DOMNodeDescription)) :
    DOMNodeDescription :=
  .mk NodeType.DOCUMENT_FRAGMENT_NODE (some "#document-fragment") none none childNodes

/-! ## Shorthand model and codecs (`dom-shorthands`, `src/unnamed/part_003`) -/

/-- The `DOMNodeShorthand` union: a bare string for text nodes, and one
key-discriminated object variant per other creatable node kind.  An attribute
value of `none` models JavaScript `null`; `content := none` models an absent
`content` key. -/
inductive DOMNodeShorthand : Type where
  | text (s : String)
  | element (tag : String) (attributes : Option (List (String × String)))
      (content : Option (List DOMNodeShorthand))
  | attr (name : String) (value : Option String)
  | cData (s : String)
  | procInst (target : String) (data : String)
  | comment (s : String)
  | fragment (content : Option (List DOMNodeShorthand))

mutual

/-- `DOMDescriptionToShorthand` (`part_003` lines 96–144): compacts a
description by `nodeType`; text becomes `nodeValue ?? ''`; an element keeps its
attribute record only when non-empty; element and fragment children are
compacted by `addChildNodesToShorthand`; unhandled node types (Document,
DocumentType) yield nothing. -/
def DOMDescriptionToShorthand (description : DOMNodeDescription) : Option DOMNodeShorthand :=
  match description with
  | .mk nodeType nodeName nodeValue attributes childNodes =>
    if nodeType = NodeType.TEXT_NODE then
      some (.text (match nodeValue with | some (some s) => s | _ => ""))
    else if nodeType = NodeType.ELEMENT_NODE then
      some (.element (nodeName.getD "")
        (match attributes with
         | some record => if record.length > 0 then some record else none
         | none => none)
        (addChildNodesToShorthand childNodes))
    else if nodeType = NodeType.ATTRIBUTE_NODE then
      some (.attr (nodeName.getD "") (match nodeValue with | some (some s) => some s | _ => none))
    else if nodeType = NodeType.CDATA_SECTION_NODE then
      some (.cData (match nodeValue with | some (some s) => s | _ => ""))
    else if nodeType = NodeType.COMMENT_NODE then
      some (.comment (match nodeValue with | some (some s) => s | _ => ""))
    else if nodeType = NodeType.PROCESSING_INSTRUCTION_NODE then
      some (.procInst (nodeName.getD "") (match nodeValue with | some (some s) => s | _ => ""))
    else if nodeType = NodeType.DOCUMENT_FRAGMENT_NODE then
      some (.fragment (addChildNodesToShorthand childNodes))
    else none

/-- `addChildNodesToShorthand` (`part_003` lines 152–165): when the description
has a `childNodes` key, produce a `content` sequence of the children's
shorthands, skipping children that convert to nothing. -/
def addChildNodesToShorthand (childNodes : Option (List DOMNodeDescription)) :
    Option (List DOMNodeShorthand) :=
  match childNodes with
  | none => none
  | some childDescriptions => some (descriptionListToShorthands childDescriptions)

/-- The push loop inside `addChildNodesToShorthand`: convert each child,
keeping only the conversions that produced a shorthand. -/
def descriptionListToShorthands : List DOMNodeDescription → List DOMNodeShorthand
  | [] => []
  | childDescription :: rest =>
      match DOMDescriptionToShorthand childDescription with
      | some childShorthand => childShorthand :: descriptionListToShorthands rest
      | none => descriptionListToShorthands rest

end

mutual

/-- `shorthandToDOMDescription` (`part_003` lines 173–197): expands a shorthand
back into a description through the factory functions; `content` is expanded
recursively by `getShorthandContentDescription`. -/
def shorthandToDOMDescription : DOMNodeShorthand → DOMNodeDescription
  | .text s => createTextNodeDescription s
  | .element tag attributes content =>
      createElementDescription tag attributes (getShorthandContentDescription content)
  | .attr name value => createAttributeDescription name value
  | .cData s => createCDataDescription s
  | .procInst target data => createProcessingInstructionDescription target data
  | .comment s => createCommentDescription s
  | .fragment content => createFragmentDescription (getShorthandContentDescription content)

/-- `getShorthandContentDescription` (`part_003` lines 258–271): expands the
`content` sequence when the key is present; absent content yields nothing. -/
def getShorthandContentDescription :
    Option (List DOMNodeShorthand) → Option (List DOMNodeDescription)
  | none => none
  | some content => some (shorthandListToDescriptions content)

/-- The push loop inside `getShorthandContentDescription`: expand each
content item (expansion always succeeds). -/
def shorthandListToDescriptions : List DOMNodeShorthand → List DOMNodeDescription
  | [] => []
  | childShorthand :: rest =>
      shorthandToDOMDescription childShorthand :: shorthandListToDescriptions rest

end

/-- The attribute loop of `shorthandToHTML` (`part_003` lines 213–218): render
each attribute of the record, in order, as a leading space, the name, `="`,
the value and a closing quote. -/
def shorthandAttributesToHTML (attributes : Option (List (String × String))) : String :=
  match attributes with
  | none => ""
  | some record =>
      record.foldl (fun html kv => html ++ " " ++ kv.1 ++ "=\"" ++ kv.2 ++ "\"") ""

mutual

/-- `shorthandToHTML` (`part_003` lines 205–250): serialize a shorthand to
markup text.  A string renders verbatim; an element renders its open tag and
attributes, then — only if the `content` key is present — `>`, the rendered
content and a closing tag, else `/>`; a fragment with content renders its
children unwrapped; a comment renders as `<!--text-->`; cData as
`<![CDATA[ text ]]>`; a processing instruction is aliased to comment syntax;
a bare attribute renders as `name="value"`, where a `null` value prints as the
literal text `null` (JavaScript `String(null)`); anything else renders empty. -/
def shorthandToHTML : DOMNodeShorthand → String
  | .text s => s
  | .element tag attributes content =>
      "<" ++ tag ++ shorthandAttributesToHTML attributes ++
        (match content with
         | some items => ">" ++ shorthandContentToHTML items ++ "</" ++ tag ++ ">"
         | none => "/>")
  | .fragment content =>
      (match content with
       | some items => shorthandContentToHTML items
       | none => "")
  | .comment s => "<!--" ++ s ++ "-->"
  | .cData s => "<![CDATA[ " ++ s ++ " ]]>"
  | .procInst target data => "<!--" ++ target ++ " " ++ data ++ "-->"
  | .attr name value =>
      name ++ "=\"" ++ (match value with | some s => s | none => "null") ++ "\""

/-- The content loop of `shorthandToHTML`: concatenate the rendered items. -/
def shorthandContentToHTML : List DOMNodeShorthand → String
  | [] => ""
  | item :: rest => shorthandToHTML item ++ shorthandContentToHTML rest

end

/-! ## Raw-object view of shorthand discrimination

`shorthandToDOMDescription` and `validateDOMShorthand` receive untyped
JavaScript values at runtime and discriminate the variants by key presence.
`validateDOMShorthand` is embedded in full on `JSValue`; for
`shorthandToDOMDescription`, whose chain is textually the same, the selected
variant is exposed through the `nodeType` code of the description the chosen
branch constructs. -/

/-- `'key' in target` for a plain object's field list. -/
def hasKey (fields : List (String × JSValue)) (key : String) : Bool :=
  fields.any (fun p => p.1 == key)

/-- `validateDOMShorthand` (`part_003` lines 309–342): a string is returned
as-is; a non-null object is returned as the first variant whose discriminating
keys it carries, in the order element (`tag`), attribute (`name` and `value`),
cData (`cData`), processing instruction (`target` and `data`), comment
(`comment`); failing those, it is returned as a fragment only when it has no
own keys, or exactly one own key named `content`; anything else yields
nothing.  (An array is an object whose own keys are its index strings.) -/
def validateDOMShorthand (target : JSValue) : Option JSValue :=
  match target with
  | .str _ => some target
  | .obj fields =>
      if hasKey fields "tag" then some target
      else if hasKey fields "name" && hasKey fields "value" then some target
      else if hasKey fields "cData" then some target
      else if hasKey fields "target" && hasKey fields "data" then some target
      else if hasKey fields "comment" then some target
      else
        let keys := fields.map Prod.fst
        if keys.length < 1 || (keys.length == 1 && keys.headD "" == "content") then some target
        else none
  | .arr items =>
      -- an array carries none of the discriminating keys; `Object.keys` is its
      -- list of index strings, so only an empty array passes the fragment test
      if items.length < 1 then some target else none
  | _ => none

/-- The key-presence chain shared by `shorthandToDOMDescription` (`part_003`
lines 173–197) and `validateDOMShorthand`, observed through the `nodeType`
code of the description the selected branch builds: a string becomes a text
description; then `tag` → element, `name` and `value` → attribute, `cData` →
cData, `target` and `data` → processing instruction, `comment` → comment, and
the fragment factory is the catch-all. -/
def shorthandDiscriminatedNodeType (target : JSValue) : Option Nat :=
  match target with
  | .str _ => some NodeType.TEXT_NODE
  | .obj fields =>
      if hasKey fields "tag" then some NodeType.ELEMENT_NODE
      else if hasKey fields "name" && hasKey fields "value" then some NodeType.ATTRIBUTE_NODE
      else if hasKey fields "cData" then some NodeType.CDATA_SECTION_NODE
      else if hasKey fields "target" && hasKey fields "data" then
        some NodeType.PROCESSING_INSTRUCTION_NODE
      else if hasKey fields "comment" then some NodeType.COMMENT_NODE
      else some NodeType.DOCUMENT_FRAGMENT_NODE
  | _ => none

mutual

/-- The JSON value a typed shorthand denotes: the object each variant's
interface describes, with exactly its declared keys (optional keys omitted
when absent, a `null` attribute value encoded as `null`). -/
def shorthandToJS : DOMNodeShorthand → JSValue
  | .text s => .str s
  | .element tag attributes content =>
      .obj ([("tag", .str tag)] ++
        (match attributes with
         | some record => [("attributes", .obj (record.map (fun kv => (kv.1, .str kv.2))))]
         | none => []) ++
        (match content with
         | some items => [("content", .arr (shorthandListToJS items))]
         | none => []))
  | .attr name value =>
      .obj [("name", .str name), ("value", match value with | some s => .str s | none => .null)]
  | .cData s => .obj [("cData", .str s)]
  | .procInst target data => .obj [("target", .str target), ("data", .str data)]
  | .comment s => .obj [("comment", .str s)]
  | .fragment content =>
      .obj (match content with
        | some items => [("content", .arr (shorthandListToJS items))]
        | none => [])

/-- Encode a content list element-wise. -/
def shorthandListToJS : List DOMNodeShorthand → List JSValue
  | [] => []
  | item :: rest => shorthandToJS item :: shorthandListToJS rest

end

mutual

/-- The JSON value a description denotes: an object holding exactly the keys
present on the record, in declaration order, with `nodeValue : null` encoded
as a present key holding `null`. -/
def descriptionToJS : DOMNodeDescription → JSValue
  | .mk nodeType nodeName nodeValue attributes childNodes =>
      .obj ([("nodeType", .num nodeType)] ++
        (match nodeName with | some n => [("nodeName", .str n)] | none => []) ++
        (match nodeValue with
         | some (some s) => [("nodeValue", .str s)]
         | some none => [("nodeValue", .null)]
         | none => []) ++
        (match attributes with
         | some record => [("attributes", .obj (record.map (fun kv => (kv.1, .str kv.2))))]
         | none => []) ++
        (match childNodes with
         | some children => [("childNodes", .arr (descriptionListToJS children))]
         | none => []))

/-- Encode a child-description list element-wise. -/
def descriptionListToJS : List DOMNodeDescription → List JSValue
  | [] => []
  | child :: rest => descriptionToJS child :: descriptionListToJS rest

end

/-! ## Live node model

The abstract host tree the specification assumes (§6): one constructor per
node kind the library touches.  An element holds its tag, an ordered live
attribute collection (name/value pairs, unique names in a real `NamedNodeMap`)
and its live child list; character-data kinds hold their data; a processing
instruction holds target and data; fragment and document hold children; a
doctype holds its name. -/
inductive DNode : Type where
  | element (tagName : String) (attributes : List (String × String)) (children : List DNode)
  | attribute (name : String) (value : String)
  | text (data : String)
  | cData (data : String)
  | procInst (target : String) (data : String)
  | comment (data : String)
  | fragment (children : List DNode)
  | document (children : List DNode)
  | doctype (name : String)

/-- `node.nodeType`. -/
def DNode.nodeTypeCode : DNode → Nat
  | .element _ _ _ => NodeType.ELEMENT_NODE
  | .attribute _ _ => NodeType.ATTRIBUTE_NODE
  | .text _ => NodeType.TEXT_NODE
  | .cData _ => NodeType.CDATA_SECTION_NODE
  | .procInst _ _ => NodeType.PROCESSING_INSTRUCTION_NODE
  | .comment _ => NodeType.COMMENT_NODE
  | .fragment _ => NodeType.DOCUMENT_FRAGMENT_NODE
  | .document _ => NodeType.DOCUMENT_NODE
  | .doctype _ => NodeType.DOCUMENT_TYPE_NODE

/-- `node.nodeName`: the tag for an element, the attribute name, the
processing-instruction target, the doctype name, and the fixed sentinel names
(`FixedNodeTypeNames`, `dom-nodes.ts` lines 200–206) for the rest. -/
def DNode.nodeNameStr : DNode → String
  | .element tagName _ _ => tagName
  | .attribute name _ => name
  | .text _ => "#text"
  | .cData _ => "#cdata-section"
  | .procInst target _ => target
  | .comment _ => "#comment"
  | .fragment _ => "#document-fragment"
  | .document _ => "#document"
  | .doctype name => name

/-- `node.nodeValue`: the attribute value or the character data; `null`
(modelled `none`) for element, fragment, document and doctype nodes. -/
def DNode.nodeValueOpt : DNode → Option String
  | .element _ _ _ => none
  | .attribute _ value => some value
  | .text data => some data
  | .cData data => some data
  | .procInst _ data => some data
  | .comment data => some data
  | .fragment _ => none
  | .document _ => none
  | .doctype _ => none

/-- `node.childNodes` as a list (empty for the kinds that hold no children). -/
def DNode.childNodesList : DNode → List DNode
  | .element _ _ children => children
  | .fragment children => children
  | .document children => children
  | _ => []

/-- Replace the live child list (identity on kinds that hold no children,
where the host tree would refuse the mutation). -/
def DNode.setChildList : DNode → List DNode → DNode
  | .element tagName attributes _, children => .element tagName attributes children
  | .fragment _, children => .fragment children
  | .document _, children => .document children
  | node, _ => node

/-- `node instanceof CharacterData`: text, cData section, processing
instruction and comment nodes. -/
def DNode.isCharacterData : DNode → Bool
  | .text _ => true
  | .cData _ => true
  | .procInst _ _ => true
  | .comment _ => true
  | _ => false

/-- `node.data = data` on a `CharacterData` node (identity on others, where
the property does not exist). -/
def DNode.setCharacterData : DNode → String → DNode
  | .text _, data => .text data
  | .cData _, data => .cData data
  | .procInst target _, data => .procInst target data
  | .comment _, data => .comment data
  | node, _ => node

/-- JavaScript object insertion `record[name] = value`: overwrite in place if
the key exists, else append. -/
def recordSet (record : List (String × String)) (name value : String) :
    List (String × String) :=
  if record.any (fun p => p.1 == name) then
    record.map (fun p => if p.1 == name then (name, value) else p)
  else record ++ [(name, value)]

/-- `describeElementAttributes` (`dom-nodes.ts` lines 90–99): walk the live
attribute collection building a name→value record (a later duplicate name
overwrites the earlier entry, keeping its position, as a JS object does). -/
def describeElementAttributes (attributes : List (String × String)) :
    List (String × String) :=
  attributes.foldl (fun attributeMap item =>
    recordSet attributeMap item.1 item.2) []

/-- The record assembly inside `describeNode` (lines 49–67): `nodeType` and
`nodeName` always; `nodeValue` only when non-null; `attributes` exactly when
the node exposes an attribute collection; `childNodes` only when the described
child list is non-empty. -/
def describedWith (nodeType : Nat) (nodeName : String) (nodeValue : Option String)
    (attributes : Option (List (String × String)))
    (childDescriptions : List DOMNodeDescription) : DOMNodeDescription :=
  .mk nodeType (some nodeName) (nodeValue.map some) attributes
    (if childDescriptions.length > 0 then some childDescriptions else none)

mutual

/-- `describeNode` (`dom-nodes.ts` lines 49–67): read `nodeType`, `nodeName`
and (when non-null) `nodeValue` from the live node; only an element exposes an
attribute collection, described by `describeElementAttributes`; children are
described by `describeNodeList` and attached only when non-empty. -/
def describeNode : DNode → DOMNodeDescription
  | .element tagName attributes children =>
      describedWith NodeType.ELEMENT_NODE tagName none
        (some (describeElementAttributes attributes)) (describeNodeList children)
  | .attribute name value =>
      describedWith NodeType.ATTRIBUTE_NODE name (some value) none []
  | .text data => describedWith NodeType.TEXT_NODE "#text" (some data) none []
  | .cData data => describedWith NodeType.CDATA_SECTION_NODE "#cdata-section" (some data) none []
  | .procInst target data =>
      describedWith NodeType.PROCESSING_INSTRUCTION_NODE target (some data) none []
  | .comment data => describedWith NodeType.COMMENT_NODE "#comment" (some data) none []
  | .fragment children =>
      describedWith NodeType.DOCUMENT_FRAGMENT_NODE "#document-fragment" none none
        (describeNodeList children)
  | .document children =>
      describedWith NodeType.DOCUMENT_NODE "#document" none none (describeNodeList children)
  | .doctype name => describedWith NodeType.DOCUMENT_TYPE_NODE name none none []

/-- `describeNodeList` (lines 75–82): describe each child in order. -/
def describeNodeList : List DNode → List DOMNodeDescription
  | [] => []
  | child :: rest => describeNode child :: describeNodeList rest

end

/-- `setElementAttributes` (`dom-nodes.ts` lines 182–192): for each key of the
record, call `setAttribute` only when the current value differs (`getAttribute`
yields `null` when absent; `setAttribute` overwrites in place or appends). -/
def setElementAttributes (attributes : List (String × String))
    (values : List (String × String)) : List (String × String) :=
  values.foldl (fun attrs kv =>
    if (attrs.find? (fun p => p.1 == kv.1)).map Prod.snd ≠ some kv.2 then
      recordSet attrs kv.1 kv.2
    else attrs) attributes

mutual

/-- `createDescribedNode` (`dom-nodes.ts` lines 107–154): dispatch on
`nodeType`.  Text, cData and comment nodes are created with `nodeValue ?? ''`;
an element requires `nodeName`, gets its attributes applied when the key is
present and its described children appended; an attribute requires `nodeName`
and is assigned `nodeValue` only when non-null (a fresh attribute's value is
`''`); a processing instruction requires `nodeName` (its target) with data
`nodeValue ?? ''`; a fragment is created empty, its described children
ignored; every other node type falls off the switch and yields nothing. -/
def createDescribedNode (description : DOMNodeDescription) : Option DNode :=
  match description with
  | .mk nodeType nodeName nodeValue _attributes childNodes =>
    if nodeType = NodeType.TEXT_NODE then
      some (.text (match nodeValue with | some (some s) => s | _ => ""))
    else if nodeType = NodeType.ELEMENT_NODE then
      match nodeName with
      | some name =>
          let attrs := match _attributes with
            | some values => setElementAttributes [] values
            | none => []
          some (.element name attrs (appendDescribedChildNodes childNodes))
      | none => none
    else if nodeType = NodeType.ATTRIBUTE_NODE then
      match nodeName with
      | some name =>
          some (.attribute name (match nodeValue with | some (some s) => s | _ => ""))
      | none => none
    else if nodeType = NodeType.CDATA_SECTION_NODE then
      some (.cData (match nodeValue with | some (some s) => s | _ => ""))
    else if nodeType = NodeType.COMMENT_NODE then
      some (.comment (match nodeValue with | some (some s) => s | _ => ""))
    else if nodeType = NodeType.PROCESSING_INSTRUCTION_NODE then
      match nodeName with
      | some name =>
          some (.procInst name (match nodeValue with | some (some s) => s | _ => ""))
      | none => none
    else if nodeType = NodeType.DOCUMENT_FRAGMENT_NODE then
      some (.fragment [])
    else none

/-- `appendDescribedChildNodes` (lines 162–174): materialize each child
description in order, appending those that yield a node. -/
def appendDescribedChildNodes (childNodes : Option (List DOMNodeDescription)) : List DNode :=
  match childNodes with
  | none => []
  | some childDescriptions => createDescribedNodeList childDescriptions

/-- The append loop of `appendDescribedChildNodes`. -/
def createDescribedNodeList : List DOMNodeDescription → List DNode
  | [] => []
  | childDescription :: rest =>
      match createDescribedNode childDescription with
      | some child => child :: createDescribedNodeList rest
      | none => createDescribedNodeList rest

end

/-! ## Reconciliation engine (`dom-nodes.ts` lines 338–529) -/

/-- `getNamedItem` on the live attribute collection: the first attribute with
the given name. -/
def getNamedItem (attributes : List (String × String)) (key : String) :
    Option (String × String) :=
  attributes.find? (fun p => p.1 == key)

/-- The key loop of `attributesMatchDescription` (lines 338–350), carrying the
running `count` of matched keys: each description key must name a live
attribute holding the same value, else the whole check fails; after the loop
the live collection's length must equal the count. -/
def attributesMatchLoop (attributes : List (String × String)) :
    List (String × String) → Nat → Bool
  | [], count => attributes.length == count
  | (key, value) :: rest, count =>
      match getNamedItem attributes key with
      | some attributeItem =>
          if value == attributeItem.2 then attributesMatchLoop attributes rest (count + 1)
          else false
      | none => false

/-- `attributesMatchDescription` (`dom-nodes.ts` lines 338–350). -/
def attributesMatchDescription (attributes : List (String × String))
    (description : List (String × String)) : Bool :=
  attributesMatchLoop attributes description 0

/-- The update phase of `applyDescribedAttributeChanges` (lines 452–462): for
each description key, append a fresh attribute when absent, else overwrite the
live attribute's value in place only when it differs. -/
def applyAttributeUpdates (attributes : List (String × String))
    (description : List (String × String)) : List (String × String) :=
  description.foldl (fun attrs kv =>
    match getNamedItem attrs kv.1 with
    | none => attrs ++ [(kv.1, kv.2)]
    | some attributeItem =>
        if attributeItem.2 ≠ kv.2 then
          attrs.map (fun p => if p.1 == kv.1 then (kv.1, kv.2) else p)
        else attrs) attributes

/-- The removal phase of `applyDescribedAttributeChanges` (lines 463–467),
exactly as written: an index loop over the LIVE collection that calls
`removeNamedItem` (which shifts later attributes down) and then still
increments the index. -/
def applyAttributeRemovals (attributes : List (String × String))
    (description : List (String × String)) (i : Nat) : List (String × String) :=
  if h : i < attributes.length then
    let attributeItem := attributes[i]
    if description.any (fun kv => kv.1 == attributeItem.1) then
      applyAttributeRemovals attributes description (i + 1)
    else
      applyAttributeRemovals (attributes.eraseP (fun p => p.1 == attributeItem.1))
        description (i + 1)
  else attributes
termination_by attributes.length - i
decreasing_by
  · omega
  · have hmem : attributes[i] ∈ attributes := List.getElem_mem h
    have hlen := List.length_eraseP_add_one (p := fun p => p.1 == attributes[i].1) hmem
      (by simp)
    omega

/-- `applyDescribedAttributeChanges` (`dom-nodes.ts` lines 448–468): the
update phase followed by the removal phase started at index 0. -/
def applyDescribedAttributeChanges (attributes : List (String × String))
    (description : List (String × String)) : List (String × String) :=
  applyAttributeRemovals (applyAttributeUpdates attributes description) description 0

/-- The trim loop of `setChildNodesFromDescriptions` (lines 511–515): while
the live child count exceeds the target length, remove the last child. -/
def trimExcessChildren (children : List DNode) (targetLength : Nat) : List DNode :=
  if children.length > targetLength then
    trimExcessChildren children.dropLast targetLength
  else children
termination_by children.length
decreasing_by
  rw [List.length_dropLast]
  omega

/-- The outcome of `applyDescribedNodeChanges`: the source signals "patched in
place" by returning the same node reference, and "replacement" by returning a
fresh node (or nothing when materialization failed). -/
inductive ApplyResult : Type where
  | patched (node : DNode)
  | replaced (node : Option DNode)

mutual

/-- `applyDescribedNodeChanges` (`dom-nodes.ts` lines 477–499): when the live
node's name equals the description's name, patch in place — overwrite
character data when the description holds a non-null `nodeValue` that differs,
reconcile an element's attributes against `description.attributes ?? {}`, and
recurse into children when the description carries a `childNodes` key — and
return the same node; otherwise return `createDescribedNode description` as
the replacement. -/
def applyDescribedNodeChanges (node : DNode) (description : DOMNodeDescription) :
    ApplyResult :=
  match description with
  | .mk _dType dName dValue dAttributes dChildNodes =>
    if some node.nodeNameStr = dName then
      let node1 :=
        if node.isCharacterData then
          match dValue with
          | some (some data) => node.setCharacterData data
          | _ => node
        else node
      let node2 :=
        match node1 with
        | .element tagName attrs children =>
            .element tagName
              (applyDescribedAttributeChanges attrs (dAttributes.getD []))
              children
        | _ => node1
      match dChildNodes with
      | some childDescriptions =>
          .patched (setChildNodesFromDescriptions node2 childDescriptions)
      | none => .patched node2
    else .replaced (createDescribedNode description)
termination_by (sizeOf description, 0)

/-- `setChildNodesFromDescriptions` (`dom-nodes.ts` lines 507–529): trim
excess children from the tail, then walk the description indices. -/
def setChildNodesFromDescriptions (node : DNode) (descriptions : List DOMNodeDescription) :
    DNode :=
  node.setChildList
    (setChildNodesLoop descriptions (trimExcessChildren node.childNodesList descriptions.length) 0)
termination_by (sizeOf descriptions, 1)

/-- The index loop of `setChildNodesFromDescriptions` (lines 516–528) over the
live child list: when a live child exists at the index, apply the description
to it and substitute the result when it is a different node (doing nothing
when a replacement failed to materialize); when the live list is exhausted,
materialize and append (skipping failures). -/
def setChildNodesLoop : List DOMNodeDescription → List DNode → Nat → List DNode
  | [], children, _ => children
  | description :: rest, children, i =>
      let children1 :=
        match children[i]? with
        | some child =>
            match applyDescribedNodeChanges child description with
            | .patched updatedChild => children.set i updatedChild
            | .replaced (some replacement) => children.set i replacement
            | .replaced none => children
        | none =>
            match createDescribedNode description with
            | some newChild => children ++ [newChild]
            | none => children
      setChildNodesLoop rest children1 (i + 1)
termination_by descriptions _cs _ => (sizeOf descriptions, 0)

end

/-! ## Well-formedness predicates used by the amended claims -/

/-- The names of a record are pairwise distinct (the invariant a live
`NamedNodeMap` maintains). -/
def nodupKeys : List (String × String) → Bool
  | [] => true
  | kv :: rest => !(rest.any (fun p => p.1 == kv.1)) && nodupKeys rest

/-- A description `createDescribedNode` can materialize, bearing the node name
the description states: a handled `nodeType`, with `nodeName` present for the
kinds that require it and equal to the fixed sentinel name for the fixed-name
kinds. -/
def descWF : DOMNodeDescription → Bool
  | .mk nodeType nodeName _ _ _ =>
    (nodeType == NodeType.ELEMENT_NODE && nodeName.isSome) ||
    (nodeType == NodeType.ATTRIBUTE_NODE && nodeName.isSome) ||
    (nodeType == NodeType.TEXT_NODE && nodeName == some "#text") ||
    (nodeType == NodeType.CDATA_SECTION_NODE && nodeName == some "#cdata-section") ||
    (nodeType == NodeType.PROCESSING_INSTRUCTION_NODE && nodeName.isSome) ||
    (nodeType == NodeType.COMMENT_NODE && nodeName == some "#comment") ||
    (nodeType == NodeType.DOCUMENT_FRAGMENT_NODE && nodeName == some "#document-fragment")

/-- A live node whose child list the host tree lets
`setChildNodesFromDescriptions` mutate: element, fragment or document. -/
def isContainerNode : DNode → Bool
  | .element _ _ _ => true
  | .fragment _ => true
  | .document _ => true
  | _ => false

/-- `nodeValue` is a present, non-null string. -/
def presentString : Option (Option String) → Bool
  | some (some _) => true
  | _ => false

/-- An element description's attribute record is omitted rather than empty:
absent, or present with at least one entry. -/
def canonicalAttributes : Option (List (String × String)) → Bool
  | some record => decide (record.length > 0)
  | none => true

mutual

/-- A description on which the shorthand round trip can be exact: the shape
`describeNode`-style canonical data has.  Kind-consistent keys: a present
`nodeName` equal to the sentinel for fixed-name kinds; a present non-null
`nodeValue` exactly for the character-data kinds (present but possibly `null`
for an attribute); `attributes` only on an element and omitted rather than
empty; `childNodes` only on an element or fragment, with canonical entries. -/
def descCanonical : DOMNodeDescription → Bool
  | .mk nodeType nodeName nodeValue attributes childNodes =>
    (nodeType == NodeType.TEXT_NODE && nodeName == some "#text" &&
      presentString nodeValue && attributes.isNone && childNodes.isNone) ||
    (nodeType == NodeType.ELEMENT_NODE && nodeName.isSome && nodeValue.isNone &&
      canonicalAttributes attributes && canonicalChildNodes childNodes) ||
    (nodeType == NodeType.ATTRIBUTE_NODE && nodeName.isSome && nodeValue.isSome &&
      attributes.isNone && childNodes.isNone) ||
    (nodeType == NodeType.CDATA_SECTION_NODE && nodeName == some "#cdata-section" &&
      presentString nodeValue && attributes.isNone && childNodes.isNone) ||
    (nodeType == NodeType.COMMENT_NODE && nodeName == some "#comment" &&
      presentString nodeValue && attributes.isNone && childNodes.isNone) ||
    (nodeType == NodeType.PROCESSING_INSTRUCTION_NODE && nodeName.isSome &&
      presentString nodeValue && attributes.isNone && childNodes.isNone) ||
    (nodeType == NodeType.DOCUMENT_FRAGMENT_NODE && nodeName == some "#document-fragment" &&
      nodeValue.isNone && attributes.isNone && canonicalChildNodes childNodes)

/-- An absent `childNodes` key, or a present one holding canonical entries. -/
def canonicalChildNodes : Option (List DOMNodeDescription) → Bool
  | some children => descListCanonical children
  | none => true

/-- Every entry canonical. -/
def descListCanonical : List DOMNodeDescription → Bool
  | [] => true
  | description :: rest => descCanonical description && descListCanonical rest

end

mutual

/-- A live node `createDescribedNode` can rebuild from its description: no
document or doctype anywhere (their descriptions are unhandled), no fragment
with children (the fragment branch of `createDescribedNode` ignores described
children), and every live attribute collection with pairwise-distinct names
(the `NamedNodeMap` invariant). -/
def canRematerialize : DNode → Bool
  | .element _ attributes children => nodupKeys attributes && listCanRematerialize children
  | .attribute _ _ => true
  | .text _ => true
  | .cData _ => true
  | .procInst _ _ => true
  | .comment _ => true
  | .fragment children => children.isEmpty
  | .document _ => false
  | .doctype _ => false

/-- Every entry rebuildable. -/
def listCanRematerialize : List DNode → Bool
  | [] => true
  | child :: rest => canRematerialize child && listCanRematerialize rest

end

/-! ## Claim theorems -/

/-- C9: `checkEquivalence` is not symmetric.  The plain object `{"0": "x"}`
compares equivalent to the array `["x"]` — the plain-object branch only walks
the object's keys and finds them all on the array — while with the arguments
swapped the array branch requires the second value to be an array, so the
comparison is false. -/
theorem checkEquivalence_not_symmetric :
    checkEquivalence (.obj [("0", .str "x")]) (.arr [.str "x"]) = true ∧
      checkEquivalence (.arr [.str "x"]) (.obj [("0", .str "x")]) = false := by
  constructor <;>
    (simp [checkEquivalence, checkEquivalenceElems, checkEquivalenceFields, JSValue.getKey,
       JSValue.ownKeys, JSValue.keyIn, JSValue.arrayIndexFields, jsStrictEq]
     try decide)

/-- C10: an attribute shorthand whose value is `null` renders as the name
followed by `="null"` — the four-character literal text `null` inside the
quotes (JavaScript `String(null)`), not an empty or omitted value. -/
theorem attributeShorthand_null_renders_literal_null (name : String) :
    shorthandToHTML (.attr name none) = name ++ "=\"null\"" := by
  show name ++ "=\"" ++ "null" ++ "\"" = name ++ "=\"null\""
  rw [String.append_assoc, String.append_assoc]
  rfl

/-- C5: `shorthandToHTML` decides between the self-closing and the open/close
element form solely by the presence of the `content` key: with `content`
present (any list, even empty) it emits `>`, the rendered content and a
closing tag; with `content` absent it emits `/>` and no closing tag — so the
two forms always render differently, `{tag: 'br'}` renders as `<br/>`, and
`{tag: 'p', content: []}` renders as `<p></p>`. -/
theorem shorthandToHTML_element_content_presence_decides :
    (∀ tag attributes content,
      shorthandToHTML (.element tag attributes (some content)) =
        "<" ++ tag ++ shorthandAttributesToHTML attributes ++ ">" ++
          shorthandContentToHTML content ++ "</" ++ tag ++ ">") ∧
    (∀ tag attributes,
      shorthandToHTML (.element tag attributes none) =
        "<" ++ tag ++ shorthandAttributesToHTML attributes ++ "/>") ∧
    (∀ tag attributes,
      shorthandToHTML (.element tag attributes (some [])) ≠
        shorthandToHTML (.element tag attributes none)) ∧
    shorthandToHTML (.element "br" none none) = "<br/>" ∧
    shorthandToHTML (.element "p" none (some [])) = "<p></p>" := by
  refine ⟨?_, ?_, ?_, ?_, ?_⟩
  · intro tag attributes content
    simp [shorthandToHTML, String.append_assoc]
  · intro tag attributes
    simp [shorthandToHTML, String.append_assoc]
  · intro tag attributes h
    have hlen := congrArg String.length h
    simp only [shorthandToHTML, shorthandContentToHTML, String.length_append] at hlen
    have e1 : ("<" : String).length = 1 := rfl
    have e2 : (">" : String).length = 1 := rfl
    have e3 : ("</" : String).length = 2 := rfl
    have e4 : ("/>" : String).length = 2 := rfl
    have e5 : ("" : String).length = 0 := rfl
    omega
  · simp [shorthandToHTML, shorthandAttributesToHTML]
  · simp [shorthandToHTML, shorthandAttributesToHTML, shorthandContentToHTML]

/-- C1 (evidence of the code bug): live attributes `a="1"`, `b="2"` — two
consecutive attributes that the empty required map says must be removed — are
not both removed: the removal loop removes `a`, every later attribute shifts
one index down, and the loop still increments its index, skipping `b`.  The
live set hence does not become the required map. -/
theorem applyDescribedAttributeChanges_skips_consecutive_removal :
    applyDescribedAttributeChanges [("a", "1"), ("b", "2")] [] = [("b", "2")] ∧
      [("b", "2")] ≠ ([] : List (String × String)) := by
  constructor
  · simp [applyDescribedAttributeChanges, applyAttributeUpdates, applyAttributeRemovals,
      List.eraseP]
  · simp

/-- C8: `createDescribedNode` is total (the embedding returns an `Option`, and
the source never throws) and yields nothing exactly for a description of kind
element, attribute or processing instruction whose `nodeName` key is absent,
or a description whose kind is outside the handled set (document, doctype, or
any unknown code); every other description yields a node. -/
theorem createDescribedNode_none_iff (description : DOMNodeDescription) :
    createDescribedNode description = none ↔
      ((description.nodeType = NodeType.ELEMENT_NODE ∨
          description.nodeType = NodeType.ATTRIBUTE_NODE ∨
          description.nodeType = NodeType.PROCESSING_INSTRUCTION_NODE) ∧
        description.nodeName = none) ∨
      description.nodeType ∉ [NodeType.ELEMENT_NODE, NodeType.ATTRIBUTE_NODE,
        NodeType.TEXT_NODE, NodeType.CDATA_SECTION_NODE,
        NodeType.PROCESSING_INSTRUCTION_NODE, NodeType.COMMENT_NODE,
        NodeType.DOCUMENT_FRAGMENT_NODE] := by
  obtain ⟨nodeType, nodeName, nodeValue, attributes, childNodes⟩ := description
  simp only [createDescribedNode, DOMNodeDescription.nodeType, DOMNodeDescription.nodeName,
    List.mem_cons, List.not_mem_nil, or_false]
  split_ifs with h1 h2 h3 h4 h5 h6 h7 <;> cases nodeName <;>
    simp_all [NodeType.ELEMENT_NODE, NodeType.ATTRIBUTE_NODE, NodeType.TEXT_NODE,
      NodeType.CDATA_SECTION_NODE, NodeType.PROCESSING_INSTRUCTION_NODE,
      NodeType.COMMENT_NODE, NodeType.DOCUMENT_FRAGMENT_NODE]

/-- The key loop of `attributesMatchDescription`, characterized for any value
of the running count: it succeeds iff every required key names a live
attribute holding the required value and the live length is the count plus
the number of required entries. -/
theorem attributesMatchLoop_iff (attributes : List (String × String)) :
    ∀ (description : List (String × String)) (count : Nat),
      attributesMatchLoop attributes description count = true ↔
        ((∀ kv ∈ description, getNamedItem attributes kv.1 = some (kv.1, kv.2)) ∧
          attributes.length = count + description.length) := by
  intro description
  induction description with
  | nil =>
      intro count
      simp [attributesMatchLoop]
  | cons kv rest ih =>
      intro count
      obtain ⟨key, value⟩ := kv
      simp only [attributesMatchLoop]
      split
      · rename_i found hfind
        obtain ⟨fn, fv⟩ := found
        have hname : fn = key := by simpa using List.find?_some hfind
        by_cases hval : value = fv
        · have hfind2 : getNamedItem attributes key = some (key, value) := by
            rw [hfind, hname, hval]
          have hbeq : (value == fv) = true := by simpa using hval
          rw [hbeq, if_pos rfl, ih (count + 1)]
          constructor
          · rintro ⟨hrest, hlen⟩
            constructor
            · intro kv hmem
              rcases List.mem_cons.mp hmem with hkv | hkv
              · rw [hkv]
                exact hfind2
              · exact hrest kv hkv
            · simp only [List.length_cons]
              omega
          · rintro ⟨hall, hlen⟩
            refine ⟨fun kv hmem => hall kv (List.mem_cons_of_mem _ hmem), ?_⟩
            simp only [List.length_cons] at hlen
            omega
        · have hbeq : (value == fv) = false := by simpa using hval
          rw [hbeq]
          simp only [Bool.false_eq_true, if_false, false_iff, not_and]
          intro hall
          have hcontra := hall (key, value) (List.mem_cons_self (key, value) rest)
          rw [hfind] at hcontra
          simp only [Option.some.injEq, Prod.mk.injEq] at hcontra
          exact fun _ => hval hcontra.2.symm
      · rename_i hfind
        simp only [Bool.false_eq_true, false_iff, not_and]
        intro hall
        have hcontra := hall (key, value) (List.mem_cons_self (key, value) rest)
        rw [hfind] at hcontra
        simp at hcontra

/-- C7: `attributesMatchDescription` returns true iff every key of the
required map names a live attribute holding an equal value and the live
collection's length equals the required map's entry count — a strict equality
check, not a subset check; in particular live attributes
`class="main", id="x"` do not match the required map `{class: "main"}`. -/
theorem attributesMatchDescription_strict_iff :
    (∀ attributes description : List (String × String),
      attributesMatchDescription attributes description = true ↔
        ((∀ kv ∈ description, getNamedItem attributes kv.1 = some (kv.1, kv.2)) ∧
          attributes.length = description.length)) ∧
    attributesMatchDescription [("class", "main"), ("id", "x")] [("class", "main")] = false := by
  constructor
  · intro attributes description
    rw [attributesMatchDescription, attributesMatchLoop_iff]
    simp
  · simp [attributesMatchDescription, attributesMatchLoop, getNamedItem]

/-- C6: the shorthand codecs discriminate object shorthands by key presence in
the fixed order element (`tag`), attribute (`name` and `value`), cData
(`cData`), processing instruction (`target` and `data`), comment (`comment`),
fragment (catch-all).  Consequently any object carrying a `tag` key resolves
as an element — whatever other variant keys it carries — and the later
variants resolve only when every earlier check failed; `validateDOMShorthand`
accepts each discriminated object and accepts a catch-all object as a
fragment only when it has zero keys or exactly one key named `content`,
yielding nothing otherwise.  The final conjunct ties the discrimination
chain to the typed decoder: on the object a typed shorthand denotes, it
selects exactly the node type `shorthandToDOMDescription` produces. -/
theorem shorthand_discrimination_order :
    (∀ fields, hasKey fields "tag" = true →
      shorthandDiscriminatedNodeType (.obj fields) = some NodeType.ELEMENT_NODE ∧
        validateDOMShorthand (.obj fields) = some (.obj fields)) ∧
    (∀ fields, hasKey fields "tag" = false →
        (hasKey fields "name" && hasKey fields "value") = true →
      shorthandDiscriminatedNodeType (.obj fields) = some NodeType.ATTRIBUTE_NODE ∧
        validateDOMShorthand (.obj fields) = some (.obj fields)) ∧
    (∀ fields, hasKey fields "tag" = false →
        (hasKey fields "name" && hasKey fields "value") = false →
        hasKey fields "cData" = true →
      shorthandDiscriminatedNodeType (.obj fields) = some NodeType.CDATA_SECTION_NODE ∧
        validateDOMShorthand (.obj fields) = some (.obj fields)) ∧
    (∀ fields, hasKey fields "tag" = false →
        (hasKey fields "name" && hasKey fields "value") = false →
        hasKey fields "cData" = false →
        (hasKey fields "target" && hasKey fields "data") = true →
      shorthandDiscriminatedNodeType (.obj fields) =
          some NodeType.PROCESSING_INSTRUCTION_NODE ∧
        validateDOMShorthand (.obj fields) = some (.obj fields)) ∧
    (∀ fields, hasKey fields "tag" = false →
        (hasKey fields "name" && hasKey fields "value") = false →
        hasKey fields "cData" = false →
        (hasKey fields "target" && hasKey fields "data") = false →
        hasKey fields "comment" = true →
      shorthandDiscriminatedNodeType (.obj fields) = some NodeType.COMMENT_NODE ∧
        validateDOMShorthand (.obj fields) = some (.obj fields)) ∧
    (∀ fields, hasKey fields "tag" = false →
        (hasKey fields "name" && hasKey fields "value") = false →
        hasKey fields "cData" = false →
        (hasKey fields "target" && hasKey fields "data") = false →
        hasKey fields "comment" = false →
      shorthandDiscriminatedNodeType (.obj fields) = some NodeType.DOCUMENT_FRAGMENT_NODE ∧
        (validateDOMShorthand (.obj fields) = some (.obj fields) ↔
          fields.map Prod.fst = [] ∨ fields.map Prod.fst = ["content"])) ∧
    (∀ shorthand, shorthandDiscriminatedNodeType (shorthandToJS shorthand) =
        some (shorthandToDOMDescription shorthand).nodeType) := by
  refine ⟨?_, ?_, ?_, ?_, ?_, ?_, ?_⟩
  · intro fields h
    simp [shorthandDiscriminatedNodeType, validateDOMShorthand, h]
  · intro fields h1 h2
    simp [shorthandDiscriminatedNodeType, validateDOMShorthand, h1, h2]
  · intro fields h1 h2 h3
    simp [shorthandDiscriminatedNodeType, validateDOMShorthand, h1, h2, h3]
  · intro fields h1 h2 h3 h4
    simp [shorthandDiscriminatedNodeType, validateDOMShorthand, h1, h2, h3, h4]
  · intro fields h1 h2 h3 h4 h5
    simp [shorthandDiscriminatedNodeType, validateDOMShorthand, h1, h2, h3, h4, h5]
  · intro fields h1 h2 h3 h4 h5
    refine ⟨by simp [shorthandDiscriminatedNodeType, h1, h2, h3, h4, h5], ?_⟩
    simp only [validateDOMShorthand, h1, h2, h3, h4, h5, Bool.false_eq_true, if_false]
    cases hkeys : fields.map Prod.fst with
    | nil => simp [hkeys]
    | cons k krest =>
        cases krest with
        | nil =>
            by_cases hk : k = "content" <;> simp [hkeys, hk]
        | cons k2 krest2 => simp [hkeys]
  · intro shorthand
    cases shorthand with
    | text s => rfl
    | element tag attributes content =>
        cases attributes <;> cases content <;>
          simp [shorthandToJS, shorthandDiscriminatedNodeType, shorthandToDOMDescription,
            createElementDescription, DOMNodeDescription.nodeType, hasKey]
    | attr name value => cases value <;> rfl
    | cData s => rfl
    | procInst target data => rfl
    | comment s => rfl
    | fragment content =>
        cases content <;>
          simp [shorthandToJS, shorthandDiscriminatedNodeType, shorthandToDOMDescription,
            createFragmentDescription, DOMNodeDescription.nodeType, hasKey]

/-- Concrete instantiation of `shorthand_discrimination_order`: the object
`{tag: "div", name: "n", value: "v"}` carries a `tag` key, hence resolves as
an element (node type 1) and passes validation, its `name`/`value` keys
notwithstanding. -/
theorem shorthand_discrimination_order_witness :
    hasKey [("tag", JSValue.str "div"), ("name", JSValue.str "n"),
        ("value", JSValue.str "v")] "tag" = true ∧
      shorthandDiscriminatedNodeType (.obj [("tag", JSValue.str "div"),
          ("name", JSValue.str "n"), ("value", JSValue.str "v")]) =
        some NodeType.ELEMENT_NODE ∧
      validateDOMShorthand (.obj [("tag", JSValue.str "div"), ("name", JSValue.str "n"),
          ("value", JSValue.str "v")]) =
        some (.obj [("tag", JSValue.str "div"), ("name", JSValue.str "n"),
          ("value", JSValue.str "v")]) :=
  ⟨by decide, (shorthand_discrimination_order.1 _ (by decide)).1,
    (shorthand_discrimination_order.1 _ (by decide)).2⟩

/-- C3 (counterexample): the element description with an empty attribute
record — `{nodeType: 1, nodeName: "div", attributes: {}}` — round-trips
through the shorthand codec to a description with no `attributes` key at all,
which is not deep-equal to the original (the codec drops an empty attribute
record, exactly as the specification's empty-attributes-omission property
says). -/
theorem shorthand_roundtrip_counterexample :
    (DOMDescriptionToShorthand
          (.mk NodeType.ELEMENT_NODE (some "div") none (some []) none)).map
        shorthandToDOMDescription =
      some (.mk NodeType.ELEMENT_NODE (some "div") none none none) ∧
    DOMNodeDescription.mk NodeType.ELEMENT_NODE (some "div") none none none ≠
      .mk NodeType.ELEMENT_NODE (some "div") none (some []) none ∧
    checkEquivalence
        (descriptionToJS (.mk NodeType.ELEMENT_NODE (some "div") none none none))
        (descriptionToJS (.mk NodeType.ELEMENT_NODE (some "div") none (some []) none)) =
      false := by
  refine ⟨by rfl, by simp, ?_⟩
  simp [descriptionToJS, descriptionListToJS, checkEquivalence, checkEquivalenceFields,
    checkEquivalenceElems, JSValue.getKey, JSValue.ownKeys, JSValue.keyIn,
    JSValue.arrayIndexFields, jsStrictEq, NodeType.ELEMENT_NODE]
  try decide

mutual

/-- Component-level body of the canonical shorthand round trip, stated over
the record fields so the nested induction's measure stays visible. -/
theorem shorthand_roundtrip_canonical_mk (nodeType : Nat) (nodeName : Option String)
    (nodeValue : Option (Option String)) (attributes : Option (List (String × String)))
    (childNodes : Option (List DOMNodeDescription))
    (h : descCanonical (.mk nodeType nodeName nodeValue attributes childNodes) = true) :
    (DOMDescriptionToShorthand
        (.mk nodeType nodeName nodeValue attributes childNodes)).map
      shorthandToDOMDescription =
      some (.mk nodeType nodeName nodeValue attributes childNodes) := by
  simp only [descCanonical, Bool.or_eq_true, Bool.and_eq_true, beq_iff_eq,
    Option.isNone_iff_eq_none] at h
  rcases h with ((((((hT | hE) | hA) | hC) | hM) | hP) | hF)
  · -- text
    obtain ⟨⟨⟨⟨ht, hname⟩, hvalue⟩, hattrs⟩, hchildren⟩ := hT
    subst ht hname hattrs hchildren
    obtain ⟨s, rfl⟩ : ∃ s, nodeValue = some (some s) := by
      cases nodeValue with
      | none => simp [presentString] at hvalue
      | some v =>
          cases v with
          | none => simp [presentString] at hvalue
          | some s => exact ⟨s, rfl⟩
    rfl
  · -- element
    obtain ⟨⟨⟨⟨ht, hname⟩, hvalue⟩, hattrs⟩, hchildren⟩ := hE
    subst ht hvalue
    obtain ⟨tag, rfl⟩ := Option.isSome_iff_exists.mp hname
    cases attributes with
    | none =>
        cases childNodes with
        | none => rfl
        | some children =>
            have hlist := shorthand_roundtrip_canonical_list children
              (by simpa [canonicalChildNodes] using hchildren)
            show some (DOMNodeDescription.mk NodeType.ELEMENT_NODE (some tag) none none
                (some (shorthandListToDescriptions (descriptionListToShorthands children)))) =
              some (DOMNodeDescription.mk NodeType.ELEMENT_NODE (some tag) none none
                (some children))
            rw [hlist]
    | some record =>
        have hpos : record.length > 0 := by simpa [canonicalAttributes] using hattrs
        cases childNodes with
        | none =>
            show some (DOMNodeDescription.mk NodeType.ELEMENT_NODE (some tag) none
                (if record.length > 0 then some record else none) none) =
              some (DOMNodeDescription.mk NodeType.ELEMENT_NODE (some tag) none
                (some record) none)
            rw [if_pos hpos]
        | some children =>
            have hlist := shorthand_roundtrip_canonical_list children
              (by simpa [canonicalChildNodes] using hchildren)
            show some (DOMNodeDescription.mk NodeType.ELEMENT_NODE (some tag) none
                (if record.length > 0 then some record else none)
                (some (shorthandListToDescriptions (descriptionListToShorthands children)))) =
              some (DOMNodeDescription.mk NodeType.ELEMENT_NODE (some tag) none
                (some record) (some children))
            rw [if_pos hpos, hlist]
  · -- attribute
    obtain ⟨⟨⟨⟨ht, hname⟩, hvalue⟩, hattrs⟩, hchildren⟩ := hA
    subst ht hattrs hchildren
    obtain ⟨name, rfl⟩ := Option.isSome_iff_exists.mp hname
    obtain ⟨v, rfl⟩ := Option.isSome_iff_exists.mp hvalue
    cases v with
    | none => rfl
    | some s => rfl
  · -- cData
    obtain ⟨⟨⟨⟨ht, hname⟩, hvalue⟩, hattrs⟩, hchildren⟩ := hC
    subst ht hname hattrs hchildren
    obtain ⟨s, rfl⟩ : ∃ s, nodeValue = some (some s) := by
      cases nodeValue with
      | none => simp [presentString] at hvalue
      | some v =>
          cases v with
          | none => simp [presentString] at hvalue
          | some s => exact ⟨s, rfl⟩
    rfl
  · -- comment
    obtain ⟨⟨⟨⟨ht, hname⟩, hvalue⟩, hattrs⟩, hchildren⟩ := hM
    subst ht hname hattrs hchildren
    obtain ⟨s, rfl⟩ : ∃ s, nodeValue = some (some s) := by
      cases nodeValue with
      | none => simp [presentString] at hvalue
      | some v =>
          cases v with
          | none => simp [presentString] at hvalue
          | some s => exact ⟨s, rfl⟩
    rfl
  · -- processing instruction
    obtain ⟨⟨⟨⟨ht, hname⟩, hvalue⟩, hattrs⟩, hchildren⟩ := hP
    subst ht hattrs hchildren
    obtain ⟨target, rfl⟩ := Option.isSome_iff_exists.mp hname
    obtain ⟨s, rfl⟩ : ∃ s, nodeValue = some (some s) := by
      cases nodeValue with
      | none => simp [presentString] at hvalue
      | some v =>
          cases v with
          | none => simp [presentString] at hvalue
          | some s => exact ⟨s, rfl⟩
    rfl
  · -- fragment
    obtain ⟨⟨⟨⟨ht, hname⟩, hvalue⟩, hattrs⟩, hchildren⟩ := hF
    subst ht hname hvalue hattrs
    cases childNodes with
    | none => rfl
    | some children =>
        have hlist := shorthand_roundtrip_canonical_list children
          (by simpa [canonicalChildNodes] using hchildren)
        show some (DOMNodeDescription.mk NodeType.DOCUMENT_FRAGMENT_NODE
            (some "#document-fragment") none none
            (some (shorthandListToDescriptions (descriptionListToShorthands children)))) =
          some (DOMNodeDescription.mk NodeType.DOCUMENT_FRAGMENT_NODE
            (some "#document-fragment") none none (some children))
        rw [hlist]
termination_by (sizeOf (DOMNodeDescription.mk nodeType nodeName nodeValue attributes childNodes), 0)

/-- Wrapper dispatching a whole description to the component-level lemma. -/
theorem shorthand_roundtrip_canonical_desc :
    ∀ (description : DOMNodeDescription), descCanonical description = true →
      (DOMDescriptionToShorthand description).map shorthandToDOMDescription =
        some description
  | .mk nodeType nodeName nodeValue attributes childNodes, h =>
      shorthand_roundtrip_canonical_mk nodeType nodeName nodeValue attributes childNodes h
termination_by description _ => (sizeOf description, 1)

/-- C3 (amended, list leg): a canonical child list survives the shorthand
round trip entry by entry. -/
theorem shorthand_roundtrip_canonical_list (children : List DOMNodeDescription)
    (h : descListCanonical children = true) :
    shorthandListToDescriptions (descriptionListToShorthands children) = children := by
  match children with
  | [] => rfl
  | child :: rest =>
      rw [descListCanonical, Bool.and_eq_true] at h
      have hhead := shorthand_roundtrip_canonical_desc child h.1
      have htail := shorthand_roundtrip_canonical_list rest h.2
      rw [descriptionListToShorthands]
      cases hsh : DOMDescriptionToShorthand child with
      | none =>
          rw [hsh] at hhead
          exact absurd hhead (by simp)
      | some shorthand =>
          rw [hsh] at hhead
          rw [shorthandListToDescriptions, htail]
          have hh : shorthandToDOMDescription shorthand = child := by simpa using hhead
          rw [hh]
termination_by (sizeOf children, 0)

end

/-- C3 (amended): a canonical description — kind-consistent keys, sentinel
names present, non-null values on character-data kinds, a present (possibly
null) value on an attribute, no empty attribute record, and canonical
children — is reproduced exactly by
`shorthandToDOMDescription ∘ DOMDescriptionToShorthand`. -/
theorem shorthand_roundtrip_canonical (description : DOMNodeDescription)
    (h : descCanonical description = true) :
    (DOMDescriptionToShorthand description).map shorthandToDOMDescription =
      some description :=
  shorthand_roundtrip_canonical_desc description h

/-- Concrete instantiation of `shorthand_roundtrip_canonical`: a canonical
element description with one attribute, a text child and an empty fragment
child round-trips exactly. -/
theorem shorthand_roundtrip_canonical_witness :
    descCanonical (.mk NodeType.ELEMENT_NODE (some "div") none (some [("a", "1")])
        (some [.mk NodeType.TEXT_NODE (some "#text") (some (some "hi")) none none,
          .mk NodeType.DOCUMENT_FRAGMENT_NODE (some "#document-fragment") none none none])) =
        true ∧
      (DOMDescriptionToShorthand (.mk NodeType.ELEMENT_NODE (some "div") none
          (some [("a", "1")])
          (some [.mk NodeType.TEXT_NODE (some "#text") (some (some "hi")) none none,
            .mk NodeType.DOCUMENT_FRAGMENT_NODE (some "#document-fragment") none none
              none]))).map shorthandToDOMDescription =
        some (.mk NodeType.ELEMENT_NODE (some "div") none (some [("a", "1")])
          (some [.mk NodeType.TEXT_NODE (some "#text") (some (some "hi")) none none,
            .mk NodeType.DOCUMENT_FRAGMENT_NODE (some "#document-fragment") none none
              none])) :=
  ⟨by decide, shorthand_roundtrip_canonical _ (by decide)⟩

/-- `recordSet` on a record that does not contain the key appends the
pair at the end. -/
theorem recordSet_of_not_mem (record : List (String × String)) (name value : String)
    (h : record.any (fun p => p.1 == name) = false) :
    recordSet record name value = record ++ [(name, value)] := by
  simp only [recordSet, h, Bool.false_eq_true, if_false]

/-- Rebuilding a record with unique keys by repeated `recordSet` (the loop of
`describeElementAttributes`) appends it unchanged after the accumulator. -/
theorem foldl_recordSet_nodup (attrs : List (String × String)) :
    ∀ acc : List (String × String),
      nodupKeys attrs = true →
      (∀ kv ∈ attrs, acc.any (fun p => p.1 == kv.1) = false) →
      attrs.foldl (fun attributeMap item => recordSet attributeMap item.1 item.2) acc =
        acc ++ attrs := by
  induction attrs with
  | nil =>
      intro acc _ _
      simp
  | cons kv rest ih =>
      intro acc hnodup hacc
      simp only [nodupKeys, Bool.and_eq_true] at hnodup
      obtain ⟨hkv, hrest⟩ := hnodup
      simp only [List.foldl_cons]
      rw [recordSet_of_not_mem acc kv.1 kv.2 (hacc kv (List.mem_cons_self kv rest))]
      rw [ih (acc ++ [(kv.1, kv.2)]) hrest ?_]
      · simp
      · intro kv2 hmem
        rw [List.any_append, Bool.or_eq_false_iff]
        refine ⟨hacc kv2 (List.mem_cons_of_mem kv hmem), ?_⟩
        simp only [List.any_cons, List.any_nil, Bool.or_false]
        have hne : ∀ p ∈ rest, ¬(p.1 == kv.1) = true := by
          rw [Bool.not_eq_true'] at hkv
          exact fun p hp => by
            have := List.any_eq_false.mp hkv p hp
            simpa using this
        have := hne kv2 hmem
        rw [beq_eq_false_iff_ne]
        exact fun hcontra => this (by simpa using hcontra.symm)

/-- `describeElementAttributes` is the identity on a live attribute collection
with unique names. -/
theorem describeElementAttributes_nodup (attrs : List (String × String))
    (h : nodupKeys attrs = true) : describeElementAttributes attrs = attrs := by
  rw [describeElementAttributes, foldl_recordSet_nodup attrs [] h (by simp)]
  simp

/-- `setElementAttributes` on a fresh element installs a unique-keyed record
verbatim (every `getAttribute` misses, so every key is set, in order). -/
theorem setElementAttributes_nodup (values : List (String × String)) :
    ∀ acc : List (String × String),
      nodupKeys values = true →
      (∀ kv ∈ values, acc.any (fun p => p.1 == kv.1) = false) →
      setElementAttributes acc values = acc ++ values := by
  induction values with
  | nil =>
      intro acc _ _
      simp [setElementAttributes]
  | cons kv rest ih =>
      intro acc hnodup hacc
      simp only [nodupKeys, Bool.and_eq_true] at hnodup
      obtain ⟨hkv, hrest⟩ := hnodup
      have hfind : acc.find? (fun p => p.1 == kv.1) = none := by
        rw [List.find?_eq_none]
        intro p hp
        have := List.any_eq_false.mp (hacc kv (List.mem_cons_self kv rest)) p hp
        simpa using this
      simp only [setElementAttributes, List.foldl_cons, hfind, Option.map_none]
      rw [if_pos (by simp)]
      rw [recordSet_of_not_mem acc kv.1 kv.2 (hacc kv (List.mem_cons_self kv rest))]
      have htail := ih (acc ++ [(kv.1, kv.2)]) hrest ?_
      · simp only [setElementAttributes] at htail
        rw [htail]
        simp
      · intro kv2 hmem
        rw [List.any_append, Bool.or_eq_false_iff]
        refine ⟨hacc kv2 (List.mem_cons_of_mem kv hmem), ?_⟩
        simp only [List.any_cons, List.any_nil, Bool.or_false]
        have hempty : ∀ p ∈ rest, ¬(p.1 == kv.1) = true := by
          rw [Bool.not_eq_true'] at hkv
          exact fun p hp => by
            have := List.any_eq_false.mp hkv p hp
            simpa using this
        have := hempty kv2 hmem
        rw [beq_eq_false_iff_ne]
        exact fun hcontra => this (by simpa using hcontra.symm)

/-- C4 (counterexample): for the live document fragment holding one text
child, `describeNode` produces a description with a `childNodes` key, but
`createDescribedNode` materializes a fragment description as an empty
fragment, whose re-description has no `childNodes` key — not deep-equal to
the original description even up to attribute reordering. -/
theorem describe_materialize_counterexample :
    (createDescribedNode (describeNode (DNode.fragment [DNode.text "x"]))).map describeNode =
      some (.mk NodeType.DOCUMENT_FRAGMENT_NODE (some "#document-fragment") none none none) ∧
    describeNode (DNode.fragment [DNode.text "x"]) =
      .mk NodeType.DOCUMENT_FRAGMENT_NODE (some "#document-fragment") none none
        (some [.mk NodeType.TEXT_NODE (some "#text") (some (some "x")) none none]) ∧
    checkEquivalence
        (descriptionToJS (.mk NodeType.DOCUMENT_FRAGMENT_NODE (some "#document-fragment")
          none none none))
        (descriptionToJS (describeNode (DNode.fragment [DNode.text "x"]))) = false := by
  refine ⟨by rfl, by rfl, ?_⟩
  simp [descriptionToJS, descriptionListToJS, describeNode, describeNodeList, describedWith,
    checkEquivalence, checkEquivalenceFields, checkEquivalenceElems, JSValue.getKey,
    JSValue.ownKeys, JSValue.keyIn, JSValue.arrayIndexFields, jsStrictEq,
    NodeType.DOCUMENT_FRAGMENT_NODE, NodeType.TEXT_NODE]
  try decide

mutual

/-- Per-node body of the describe/materialize round trip. -/
theorem describe_materialize_roundtrip_node :
    ∀ node : DNode, canRematerialize node = true →
      (createDescribedNode (describeNode node)).map describeNode =
        some (describeNode node)
  | .element tagName attributes children, h => by
      simp only [canRematerialize, Bool.and_eq_true] at h
      obtain ⟨hnodup, hchildren⟩ := h
      have hd : describeElementAttributes attributes = attributes :=
        describeElementAttributes_nodup attributes hnodup
      have hs : setElementAttributes [] attributes = attributes := by
        have := setElementAttributes_nodup attributes [] hnodup (by simp)
        simpa using this
      have hlist := describe_materialize_roundtrip_list children hchildren
      cases children with
      | nil =>
          show some (DOMNodeDescription.mk NodeType.ELEMENT_NODE (some tagName) none
              (some (describeElementAttributes (setElementAttributes []
                (describeElementAttributes attributes)))) none) =
            some (DOMNodeDescription.mk NodeType.ELEMENT_NODE (some tagName) none
              (some (describeElementAttributes attributes)) none)
          rw [hd, hs, hd]
      | cons child rest =>
          have hlist2 : describeNodeList (createDescribedNodeList
              (describeNode child :: describeNodeList rest)) =
            describeNode child :: describeNodeList rest := hlist
          have hP : (describeNode child :: describeNodeList rest).length > 0 := by simp
          simp only [describeNode, describeNodeList, describedWith, createDescribedNode,
            NodeType.ELEMENT_NODE, NodeType.TEXT_NODE, NodeType.ATTRIBUTE_NODE,
            NodeType.CDATA_SECTION_NODE, NodeType.COMMENT_NODE,
            NodeType.PROCESSING_INSTRUCTION_NODE, NodeType.DOCUMENT_FRAGMENT_NODE,
            appendDescribedChildNodes, createDescribedNodeList]
          norm_num [Option.map_none', if_pos hP]
          simp only [appendDescribedChildNodes, describeNode, describeNodeList,
            describedWith, hlist2, if_pos hP, hd, hs]
          rfl
  | .attribute name value, _ => by rfl
  | .text data, _ => by rfl
  | .cData data, _ => by rfl
  | .procInst target data, _ => by rfl
  | .comment data, _ => by rfl
  | .fragment children, h => by
      cases children with
      | nil => rfl
      | cons child rest => simp [canRematerialize] at h
  | .document _, h => by simp [canRematerialize] at h
  | .doctype _, h => by simp [canRematerialize] at h
termination_by node _ => (sizeOf node, 0)

/-- C4 (amended, list leg): a rebuildable child list is reproduced
description-by-description (every child materializes, in order). -/
theorem describe_materialize_roundtrip_list :
    ∀ children : List DNode, listCanRematerialize children = true →
      describeNodeList (createDescribedNodeList (describeNodeList children)) =
        describeNodeList children
  | [], _ => rfl
  | child :: rest, h => by
      simp only [listCanRematerialize, Bool.and_eq_true] at h
      have hhead := describe_materialize_roundtrip_node child h.1
      have htail := describe_materialize_roundtrip_list rest h.2
      cases hc : createDescribedNode (describeNode child) with
      | none =>
          rw [hc] at hhead
          exact absurd hhead (by simp)
      | some newChild =>
          rw [hc] at hhead
          have hnew : describeNode newChild = describeNode child := by simpa using hhead
          show describeNodeList (createDescribedNodeList
              (describeNode child :: describeNodeList rest)) =
            describeNode child :: describeNodeList rest
          rw [createDescribedNodeList, hc, describeNodeList, hnew, htail]
termination_by children _ => (sizeOf children, 0)

end

/-- C4 (amended): a live node that contains no document or doctype, no
fragment with children, and only unique-keyed attribute collections (the
`NamedNodeMap` invariant) is reproduced, up to its description, by
`createDescribedNode ∘ describeNode`: materializing its description yields a
node with an identical description. -/
theorem describe_materialize_roundtrip (node : DNode)
    (h : canRematerialize node = true) :
    (createDescribedNode (describeNode node)).map describeNode =
      some (describeNode node) :=
  describe_materialize_roundtrip_node node h

/-- Concrete instantiation of `describe_materialize_roundtrip`: an element
with one attribute, a text child and a comment child survives the
describe/materialize round trip. -/
theorem describe_materialize_roundtrip_witness :
    canRematerialize (.element "div" [("a", "1")] [.text "x", .comment "c"]) = true ∧
      (createDescribedNode (describeNode
          (DNode.element "div" [("a", "1")] [.text "x", .comment "c"]))).map describeNode =
        some (describeNode (DNode.element "div" [("a", "1")] [.text "x", .comment "c"])) :=
  ⟨by decide, describe_materialize_roundtrip _ (by decide)⟩

/-- Replacing a node's child list does not change its node name. -/
theorem nodeNameStr_setChildList (node : DNode) (children : List DNode) :
    (node.setChildList children).nodeNameStr = node.nodeNameStr := by
  cases node <;> rfl

/-- Reconciling a node's children does not change its node name. -/
theorem nodeNameStr_setChildNodesFromDescriptions (node : DNode)
    (descriptions : List DOMNodeDescription) :
    (setChildNodesFromDescriptions node descriptions).nodeNameStr = node.nodeNameStr := by
  simp only [setChildNodesFromDescriptions]
  exact nodeNameStr_setChildList node _

/-- The child list of a container node after `setChildList` is the installed
list. -/
theorem childNodesList_setChildList (node : DNode) (children : List DNode)
    (hc : isContainerNode node = true) :
    (node.setChildList children).childNodesList = children := by
  cases node <;> simp_all [isContainerNode, DNode.setChildList, DNode.childNodesList]

/-- A well-formed description materializes, and the created node bears the
description's node name. -/
theorem createDescribedNode_of_descWF (description : DOMNodeDescription)
    (h : descWF description = true) :
    ∃ node, createDescribedNode description = some node ∧
      some node.nodeNameStr = description.nodeName := by
  obtain ⟨nodeType, nodeName, nodeValue, attributes, childNodes⟩ := description
  simp only [descWF, Bool.or_eq_true, Bool.and_eq_true, beq_iff_eq] at h
  rcases h with ((((((h1 | h2) | h3) | h4) | h7) | h8) | h11)
  · obtain ⟨ht, hname⟩ := h1
    obtain ⟨tag, rfl⟩ := Option.isSome_iff_exists.mp hname
    subst ht
    exact ⟨_, rfl, rfl⟩
  · obtain ⟨ht, hname⟩ := h2
    obtain ⟨name, rfl⟩ := Option.isSome_iff_exists.mp hname
    subst ht
    exact ⟨_, rfl, rfl⟩
  · obtain ⟨ht, hname⟩ := h3
    subst ht hname
    exact ⟨_, rfl, rfl⟩
  · obtain ⟨ht, hname⟩ := h4
    subst ht hname
    exact ⟨_, rfl, rfl⟩
  · obtain ⟨ht, hname⟩ := h7
    obtain ⟨target, rfl⟩ := Option.isSome_iff_exists.mp hname
    subst ht
    exact ⟨_, rfl, rfl⟩
  · obtain ⟨ht, hname⟩ := h8
    subst ht hname
    exact ⟨_, rfl, rfl⟩
  · obtain ⟨ht, hname⟩ := h11
    subst ht hname
    exact ⟨_, rfl, rfl⟩

/-- When the live node's name equals the description's name,
`applyDescribedNodeChanges` patches in place, and the patched node keeps the
live node's name. -/
theorem applyDescribedNodeChanges_patched_of_name (node : DNode)
    (description : DOMNodeDescription)
    (h : some node.nodeNameStr = description.nodeName) :
    ∃ m, applyDescribedNodeChanges node description = .patched m ∧
      m.nodeNameStr = node.nodeNameStr := by
  obtain ⟨dType, dName, dValue, dAttributes, dChildNodes⟩ := description
  replace h : some node.nodeNameStr = dName := h
  simp only [applyDescribedNodeChanges.eq_def]
  rw [if_pos h]
  cases dChildNodes with
  | some childDescriptions =>
      refine ⟨_, rfl, ?_⟩
      rw [nodeNameStr_setChildNodesFromDescriptions]
      rcases dValue with - | (- | s) <;> cases node <;> rfl
  | none =>
      refine ⟨_, rfl, ?_⟩
      rcases dValue with - | (- | s) <;> cases node <;> rfl

/-- When the names differ, `applyDescribedNodeChanges` returns the
materialization of the description as a replacement. -/
theorem applyDescribedNodeChanges_replaced_of_name_ne (node : DNode)
    (description : DOMNodeDescription)
    (h : ¬some node.nodeNameStr = description.nodeName) :
    applyDescribedNodeChanges node description =
      .replaced (createDescribedNode description) := by
  obtain ⟨dType, dName, dValue, dAttributes, dChildNodes⟩ := description
  replace h : ¬some node.nodeNameStr = dName := h
  simp only [applyDescribedNodeChanges.eq_def]
  rw [if_neg h]

/-- The trim loop leaves `min` of the live count and the target length. -/
theorem trimExcessChildren_length (children : List DNode) (targetLength : Nat) :
    (trimExcessChildren children targetLength).length =
      min children.length targetLength := by
  rw [trimExcessChildren]
  split_ifs with h
  · rw [trimExcessChildren_length children.dropLast targetLength, List.length_dropLast]
    omega
  · omega
termination_by children.length
decreasing_by
  rw [List.length_dropLast]
  omega

/-- Assembly step for the loop invariant of `setChildNodesLoop`: given the
processed state after one iteration and the inductive hypothesis for the rest,
conclude the three-part specification for the whole loop. -/
theorem setChildNodesLoop_spec_assemble (description : DOMNodeDescription)
    (rest : List DOMNodeDescription) (children children1 : List DNode) (i : Nat)
    (hstep : setChildNodesLoop (description :: rest) children i =
      setChildNodesLoop rest children1 (i + 1))
    (hlen1 : children1.length = max children.length (i + 1))
    (hpres1 : ∀ j, j < i → children1[j]? = children[j]?)
    (hname1 : (children1[i]?).map DNode.nodeNameStr = description.nodeName)
    (hIH : ((setChildNodesLoop rest children1 (i + 1)).length =
          max children1.length ((i + 1) + rest.length)) ∧
        (∀ j, j < i + 1 → (setChildNodesLoop rest children1 (i + 1))[j]? = children1[j]?) ∧
        (∀ j, j < rest.length →
          ((setChildNodesLoop rest children1 (i + 1))[(i + 1) + j]?).map DNode.nodeNameStr =
            (rest[j]?).bind DOMNodeDescription.nodeName)) :
    ((setChildNodesLoop (description :: rest) children i).length =
        max children.length (i + (description :: rest).length)) ∧
      (∀ j, j < i → (setChildNodesLoop (description :: rest) children i)[j]? = children[j]?) ∧
      (∀ j, j < (description :: rest).length →
        ((setChildNodesLoop (description :: rest) children i)[i + j]?).map
            DNode.nodeNameStr =
          ((description :: rest)[j]?).bind DOMNodeDescription.nodeName) := by
  obtain ⟨ihlen, ihpres, ihnames⟩ := hIH
  rw [hstep]
  refine ⟨?_, ?_, ?_⟩
  · rw [ihlen, hlen1, List.length_cons]
    omega
  · intro j hj
    rw [ihpres j (by omega), hpres1 j hj]
  · intro j hj
    cases j with
    | zero =>
        simp only [Nat.add_zero]
        rw [ihpres i (by omega), List.getElem?_cons_zero]
        simpa using hname1
    | succ j0 =>
        have hrec := ihnames j0 (by
          simp only [List.length_cons] at hj
          omega)
        rw [show i + (j0 + 1) = (i + 1) + j0 by omega, hrec, List.getElem?_cons_succ]

/-- The invariant of the index loop of `setChildNodesFromDescriptions`, for
well-formed descriptions and an index within the live list: the final length
is `max` of the entry length and `i + descriptions.length`; entries below `i`
are untouched; and every processed position bears the node name of its
description. -/
theorem setChildNodesLoop_spec (descriptions : List DOMNodeDescription) :
    ∀ (children : List DNode) (i : Nat),
      descriptions.all descWF = true → i ≤ children.length →
      ((setChildNodesLoop descriptions children i).length =
          max children.length (i + descriptions.length)) ∧
        (∀ j, j < i → (setChildNodesLoop descriptions children i)[j]? = children[j]?) ∧
        (∀ j, j < descriptions.length →
          ((setChildNodesLoop descriptions children i)[i + j]?).map DNode.nodeNameStr =
            (descriptions[j]?).bind DOMNodeDescription.nodeName) := by
  induction descriptions with
  | nil =>
      intro children i _ hi
      refine ⟨?_, ?_, ?_⟩
      · simp only [setChildNodesLoop, List.length_nil]
        omega
      · intro j hj
        simp only [setChildNodesLoop]
      · intro j hj
        simp at hj
  | cons description rest ih =>
      intro children i hwf hi
      simp only [List.all_cons, Bool.and_eq_true] at hwf
      obtain ⟨hwf1, hwfrest⟩ := hwf
      cases hci : children[i]? with
      | some child =>
          have hlt : i < children.length := by
            by_contra hcon
            rw [List.getElem?_eq_none_iff.mpr (by omega)] at hci
            exact Option.noConfusion hci
          by_cases hname : some child.nodeNameStr = description.nodeName
          · obtain ⟨m, hm, hmname⟩ :=
              applyDescribedNodeChanges_patched_of_name child description hname
            have hstep : setChildNodesLoop (description :: rest) children i =
                setChildNodesLoop rest (children.set i m) (i + 1) := by
              simp only [setChildNodesLoop, hci, hm]
            refine setChildNodesLoop_spec_assemble description rest children
              (children.set i m) i hstep ?_ ?_ ?_
              (ih (children.set i m) (i + 1) hwfrest (by rw [List.length_set]; omega))
            · rw [List.length_set]
              omega
            · intro j hj
              exact List.getElem?_set_ne (by omega)
            · rw [List.getElem?_set_eq_of_lt m hlt]
              show some m.nodeNameStr = description.nodeName
              rw [hmname]
              exact hname
          · have happly := applyDescribedNodeChanges_replaced_of_name_ne child description hname
            obtain ⟨n, hn, hnname⟩ := createDescribedNode_of_descWF description hwf1
            rw [hn] at happly
            have hstep : setChildNodesLoop (description :: rest) children i =
                setChildNodesLoop rest (children.set i n) (i + 1) := by
              simp only [setChildNodesLoop, hci, happly]
            refine setChildNodesLoop_spec_assemble description rest children
              (children.set i n) i hstep ?_ ?_ ?_
              (ih (children.set i n) (i + 1) hwfrest (by rw [List.length_set]; omega))
            · rw [List.length_set]
              omega
            · intro j hj
              exact List.getElem?_set_ne (by omega)
            · rw [List.getElem?_set_eq_of_lt n hlt]
              simpa using hnname
      | none =>
          have hge : children.length ≤ i := List.getElem?_eq_none_iff.mp hci
          have heqlen : i = children.length := by omega
          obtain ⟨n, hn, hnname⟩ := createDescribedNode_of_descWF description hwf1
          have hstep : setChildNodesLoop (description :: rest) children i =
              setChildNodesLoop rest (children ++ [n]) (i + 1) := by
            simp only [setChildNodesLoop, hci, hn]
          refine setChildNodesLoop_spec_assemble description rest children
            (children ++ [n]) i hstep ?_ ?_ ?_
            (ih (children ++ [n]) (i + 1) hwfrest (by
              rw [List.length_append, List.length_singleton]
              omega))
          · rw [List.length_append, List.length_singleton]
            omega
          · intro j hj
            exact List.getElem?_append_left (by omega)
          · rw [heqlen, List.getElem?_concat_length]
            simpa using hnname

/-- C2 (counterexample): an empty `div` element reconciled against the single
description `{nodeType: 1}` — an element description with no `nodeName` —
ends with zero children, not one: the description cannot materialize, so
nothing is appended. -/
theorem setChildNodes_counterexample :
    (setChildNodesFromDescriptions (DNode.element "div" [] [])
        [.mk NodeType.ELEMENT_NODE none none none none]).childNodesList.length = 0 ∧
      (0 : Nat) ≠ [DOMNodeDescription.mk NodeType.ELEMENT_NODE none none none none].length := by
  constructor
  · simp [setChildNodesFromDescriptions, setChildNodesLoop, trimExcessChildren,
      createDescribedNode, DNode.childNodesList, DNode.setChildList,
      NodeType.ELEMENT_NODE, NodeType.TEXT_NODE]
  · simp

/-- C2 (amended): for every container node (element, fragment or document) and
every list of well-formed descriptions (handled node type, required name
present, fixed-name kinds bearing their sentinel name), after
`setChildNodesFromDescriptions` the live child count equals
`descriptions.length` and the child at each index bears the node name its
description states. -/
theorem setChildNodesFromDescriptions_reconciles (node : DNode)
    (descriptions : List DOMNodeDescription)
    (hc : isContainerNode node = true) (hwf : descriptions.all descWF = true) :
    ((setChildNodesFromDescriptions node descriptions).childNodesList.length =
        descriptions.length) ∧
      ∀ j, j < descriptions.length →
        (((setChildNodesFromDescriptions node descriptions).childNodesList)[j]?).map
            DNode.nodeNameStr =
          (descriptions[j]?).bind DOMNodeDescription.nodeName := by
  have htrim : (trimExcessChildren node.childNodesList descriptions.length).length =
      min node.childNodesList.length descriptions.length :=
    trimExcessChildren_length node.childNodesList descriptions.length
  have hspec := setChildNodesLoop_spec descriptions
    (trimExcessChildren node.childNodesList descriptions.length) 0 hwf (Nat.zero_le _)
  have hchild : (setChildNodesFromDescriptions node descriptions).childNodesList =
      setChildNodesLoop descriptions
        (trimExcessChildren node.childNodesList descriptions.length) 0 := by
    simp only [setChildNodesFromDescriptions]
    exact childNodesList_setChildList node _ hc
  rw [hchild]
  constructor
  · rw [hspec.1, htrim]
    omega
  · intro j hj
    have hnames := hspec.2.2 j hj
    simpa using hnames

/-- Concrete instantiation of `setChildNodesFromDescriptions_reconciles`: a
`div` with three children reconciled against one text description ends with
exactly one child bearing the described name (the spec's trim example). -/
theorem setChildNodesFromDescriptions_reconciles_witness :
    isContainerNode (DNode.element "div" [] [.text "a", .element "b" [] [], .text "c"]) =
        true ∧
      ([DOMNodeDescription.mk NodeType.TEXT_NODE (some "#text") (some (some "1")) none
          none].all descWF = true) ∧
      ((setChildNodesFromDescriptions
          (DNode.element "div" [] [.text "a", .element "b" [] [], .text "c"])
          [.mk NodeType.TEXT_NODE (some "#text") (some (some "1")) none
            none]).childNodesList.length = 1) ∧
      (((setChildNodesFromDescriptions
          (DNode.element "div" [] [.text "a", .element "b" [] [], .text "c"])
          [.mk NodeType.TEXT_NODE (some "#text") (some (some "1")) none
            none]).childNodesList)[0]?).map DNode.nodeNameStr =
        ([DOMNodeDescription.mk NodeType.TEXT_NODE (some "#text") (some (some "1")) none
          none][0]?).bind DOMNodeDescription.nodeName :=
  ⟨by decide, by decide,
    (setChildNodesFromDescriptions_reconciles _ _ (by decide) (by decide)).1,
    (setChildNodesFromDescriptions_reconciles _ _ (by decide) (by decide)).2 0 (by decide)⟩

end DomShorthand



